import Mathlib

/-!
Verification of the checkpointed batch-pipeline orchestrator
(`harness/pipeline`: `quiver_utils.py`, `orchestrator.py`, `parallel.py`,
`_subprocess.py`) against its natural-language specification.

Modelling conventions:
  * A quiver file is modelled as a `List String` of its lines (Python's
    text-mode line iteration partitions a file losslessly into lines, each
    keeping its terminator), so concatenating the line lists of several
    files models concatenating the files, and equality of line lists models
    byte-for-byte equality of file contents.
  * A file that may be absent on disk is an `Option (List String)`
    (`none` = the path does not exist).
  * The orchestrator's side effects are modelled as an event trace
    (`Ev`): stage executions, batch executions, checkpoint writes, the
    split step and the merge step, in the order the code performs them.
  * External stage programs are opaque: their success/failure is a
    parameter (`Bool` per invocation), as is the content they write.
-/

namespace Pipeline

/-! ## Record-collection codec (`quiver_utils.py`) -/

/-- The tag-marker token that starts a new record (`QV_TAG_PREFIX`). -/
def qvTag : String := "QV_TAG"

/-- Whether a line starts a new record (`line.startswith(QV_TAG_PREFIX)`):
the first characters of the line are exactly the tag-marker token. -/
def isTag (l : String) : Bool := l.data.take qvTag.data.length == qvTag.data

/-- Model of `count_entries`: the number of tag lines in the file. -/
def count_entries (lines : List String) : Nat := (lines.filter isTag).length

/-- The accumulation loop of `split`: walks the input lines keeping the
current batch `cur`, its record count `cnt`, and the batches flushed so
far `acc`.  On meeting a tag line while `cnt ≥ batchSize` the current
batch is flushed (the flush is a no-op on an empty batch, as in
`_flush`); every line is then appended to the current batch and tag
lines bump the count.  At end of input the final partial batch is
flushed. -/
def splitGo (batchSize : Nat) : List String → List String → Nat → List (List String) → List (List String)
  | [], cur, _, acc => if cur.isEmpty then acc else acc ++ [cur]
  | l :: rest, cur, cnt, acc =>
    if isTag l && decide (batchSize ≤ cnt) then
      splitGo batchSize rest [l] 1 (if cur.isEmpty then acc else acc ++ [cur])
    else
      splitGo batchSize rest (cur ++ [l]) (if isTag l then cnt + 1 else cnt) acc

/-- Model of `split`: split a quiver file into batches of `batchSize` entries each,
returned in index order (`batch_0000.qv`, `batch_0001.qv`, ...). -/
def split (lines : List String) (batchSize : Nat) : List (List String) :=
  splitGo batchSize lines [] 0 []

/-- Model of `merge`: concatenate the given files into one output, silently
skipping any path that does not exist (`if qv.exists():`), and return the
output content together with the recomputed entry count. -/
def merge : List (Option (List String)) → List String × Nat
  | [] => ([], 0)
  | none :: rest => merge rest
  | some c :: rest =>
    let r := merge rest
    (c ++ r.1, count_entries c + r.2)

/-- The merged file content produced by `merge`. -/
def mergeContent (files : List (Option (List String))) : List String :=
  (merge files).1

theorem splitGo_flatten (batchSize : Nat) :
    ∀ (lines cur : List String) (cnt : Nat) (acc : List (List String)),
      (splitGo batchSize lines cur cnt acc).flatten = acc.flatten ++ cur ++ lines := by
  intro lines
  induction lines with
  | nil =>
    intro cur cnt acc
    by_cases h : cur.isEmpty
    · simp [splitGo, h, List.isEmpty_iff.mp h]
    · simp [splitGo, h]
  | cons l rest ih =>
    intro cur cnt acc
    by_cases hf : (isTag l && decide (batchSize ≤ cnt)) = true
    · by_cases hc : cur.isEmpty
      · simp [splitGo, hf, hc, ih, List.isEmpty_iff.mp hc]
      · simp [splitGo, hf, hc, ih]
    · simp [splitGo, hf, ih]

/-- Concatenating the batches produced by `split`, in index order,
reproduces the input exactly. -/
theorem split_flatten (lines : List String) (batchSize : Nat) :
    (split lines batchSize).flatten = lines := by
  simp [split, splitGo_flatten]

theorem mergeContent_map_some (batches : List (List String)) :
    mergeContent (batches.map some) = batches.flatten := by
  induction batches with
  | nil => rfl
  | cons b rest ih =>
    simp [mergeContent, merge] at ih ⊢
    exact ih

/-- Claim C1: split/merge round-trip — for every record collection `C` and
every `batch_size ≥ 1`, merging (in index order) the batch files produced
by `split(C, batch_size)` yields a file byte-for-byte equal to `C`
(covering 0 records, 1 record, and counts not divisible by the batch
size, since `C` is universally quantified). -/
theorem split_merge_roundtrip (lines : List String) (batchSize : Nat)
    (hbs : 1 ≤ batchSize) :
    mergeContent ((split lines batchSize).map some) = lines := by
  rw [mergeContent_map_some, split_flatten]

/-- Witness for C1: a concrete 3-record collection with `batch_size = 2`
(record count not divisible by the batch size) round-trips. -/
theorem split_merge_roundtrip_witness :
    mergeContent ((split ["QV_TAG a\n", "atom1\n", "QV_TAG b\n", "atom2\n", "QV_TAG c\n"] 2).map some)
      = ["QV_TAG a\n", "atom1\n", "QV_TAG b\n", "atom2\n", "QV_TAG c\n"] :=
  split_merge_roundtrip ["QV_TAG a\n", "atom1\n", "QV_TAG b\n", "atom2\n", "QV_TAG c\n"] 2 (by decide)

/-- Claim C8 counterexample: `merge` called on a list containing a missing
path does not fail — it produces an output, silently skipping the missing
input (here the missing second input is dropped and the two existing
files are concatenated). -/
theorem merge_missing_input_skipped :
    merge [some ["QV_TAG a\n", "atom1\n"], none, some ["QV_TAG b\n"]]
      = (["QV_TAG a\n", "atom1\n", "QV_TAG b\n"], 2) := by
  decide

/-- Claim C8 (amended): `merge` never fails on a missing input; a missing
path anywhere in the input list is silently skipped, leaving the merged
content and the returned record count exactly those of the remaining
inputs. -/
theorem merge_skips_missing (xs ys : List (Option (List String))) :
    merge (xs ++ none :: ys) = merge (xs ++ ys) := by
  induction xs with
  | nil => simp [merge]
  | cons x rest ih =>
    cases x with
    | none => simpa [merge] using ih
    | some c => simp [merge, ih]

/-! ## Stage executor (`_subprocess.py`) -/

/-- The environment key whose default the executor injects
(`"HYDRA_FULL_ERROR": "1"`). -/
def hydraKey : String := "HYDRA_FULL_ERROR"

/-- The worker-identity environment key set per parallel worker
(`"CUDA_VISIBLE_DEVICES"`). -/
def cudaKey : String := "CUDA_VISIBLE_DEVICES"

/-- A process environment: a finite map from variable names to values,
modelled as a function to `Option String`. -/
def Env : Type := String → Option String

/-- Python dict-merge `{**base, **over}` at one key: the right operand
wins wherever it is defined. -/
def updEnv (base over : Env) : Env :=
  fun k => match over k with
  | some v => some v
  | none => base k

/-- The single-binding dict `{"HYDRA_FULL_ERROR": "1"}`. -/
def hydraDefault : Env := fun k => if k = hydraKey then some ("1") else none

/-- The empty environment. -/
def emptyEnv : Env := fun _ => none

/-- The child-process environment built by `run_pipeline_command`:
`run_env = {**os.environ, "HYDRA_FULL_ERROR": "1", **(env or {})}`. -/
def childEnv (ambient over : Env) : Env :=
  updEnv (updEnv ambient hydraDefault) over

/-- The child environment as the spec's words describe it (modelled from
the spec, for comparison with `childEnv`): the ambient process
environment with the caller-supplied overrides merged on top. -/
def specChildEnv (ambient over : Env) : Env := updEnv ambient over

/-- The per-worker environment built by `run_stage_parallel`:
`env = {**os.environ, "CUDA_VISIBLE_DEVICES": str(gpu_id)}`. -/
def workerEnv (ambient : Env) (gpuId : Nat) : Env :=
  updEnv ambient (fun k => if k = cudaKey then some (toString gpuId) else none)

/-- Python's `s[-5000:]`: the last `n` characters of a string. -/
def lastChars (n : Nat) (s : String) : String :=
  ⟨s.data.drop (s.data.length - n)⟩

/-- The error message raised on a non-zero exit status:
`f"{label} failed (exit {proc.returncode}):\n{stdout_text[-5000:]}"`. -/
def stageFailureMessage (label : String) (returncode : Int) (stdoutText : String) : String :=
  label ++ " failed (exit " ++ toString returncode ++ "):\n" ++ lastChars 5000 stdoutText

/-- The outcome of `run_pipeline_command` as a function of the
subprocess's exit status and its captured combined output (stdout and
stderr are merged by `stderr=subprocess.STDOUT`): a non-zero status
raises `RuntimeError` with `stageFailureMessage`; a zero status returns
the completed process (its captured output). -/
def run_pipeline_command (returncode : Int) (label stdoutText : String) :
    Except String String :=
  if returncode ≠ 0 then .error (stageFailureMessage label returncode stdoutText)
  else .ok stdoutText

theorem lastChars_length_le (n : Nat) (s : String) : (lastChars n s).length ≤ n := by
  simp only [lastChars, String.length]
  simp [List.length_drop]
  omega

/-- Claim C7: for every command whose subprocess exits non-zero, the
executor raises an error whose message carries the stage label, the exit
code, and the tail of the captured combined output bounded to the last
5000 characters; on a zero exit status it returns the completed process
and raises nothing. -/
theorem run_pipeline_command_contract (returncode : Int) (label stdoutText : String) :
    (returncode ≠ 0 →
      run_pipeline_command returncode label stdoutText =
        .error (label ++ " failed (exit " ++ toString returncode ++ "):\n"
          ++ lastChars 5000 stdoutText)
      ∧ (lastChars 5000 stdoutText).length ≤ 5000)
    ∧ (returncode = 0 → run_pipeline_command returncode label stdoutText = .ok stdoutText) := by
  constructor
  · intro h
    exact ⟨by simp [run_pipeline_command, h, stageFailureMessage], lastChars_length_le 5000 stdoutText⟩
  · intro h
    simp [run_pipeline_command, h]

/-- Witness for C7: exit status 2 with label `RF2` raises the formatted
failure message, whose output tail is within the 5000-character bound. -/
theorem run_pipeline_command_contract_witness :
    run_pipeline_command 2 "RF2" "boom" =
        .error ("RF2" ++ " failed (exit " ++ toString (2 : Int) ++ "):\n"
          ++ lastChars 5000 "boom")
      ∧ (lastChars 5000 "boom").length ≤ 5000 := by
  have h := (run_pipeline_command_contract 2 "RF2" "boom").1 (by decide)
  exact ⟨h.1, h.2⟩

/-- Claim C9 counterexample: with an empty ambient environment and no
caller overrides, the child environment built by the executor still binds
`HYDRA_FULL_ERROR` to `"1"`, whereas the spec-described merge of ambient
and overrides leaves it unbound — so the child environment is not the
ambient environment with the overrides merged on top. -/
theorem childEnv_ne_specChildEnv :
    childEnv emptyEnv emptyEnv hydraKey = some ("1")
    ∧ specChildEnv emptyEnv emptyEnv hydraKey = none
    ∧ childEnv emptyEnv emptyEnv ≠ specChildEnv emptyEnv emptyEnv := by
  refine ⟨rfl, rfl, fun h => ?_⟩
  have h2 := congrFun h hydraKey
  simp [childEnv, specChildEnv, updEnv, hydraDefault, emptyEnv] at h2

/-- Claim C9 (amended): the child-process environment is the ambient
environment, then the injected default `HYDRA_FULL_ERROR=1`, with the
caller-supplied overrides merged on top: a caller override always wins
(over the ambient value and over the injected default); a variable the
caller does not override keeps its ambient value, except
`HYDRA_FULL_ERROR`, which defaults to `"1"`.  The per-worker environment
of the parallel dispatcher likewise merges the worker-identity variable
on top of the ambient environment, winning on conflict. -/
theorem childEnv_precedence (ambient over : Env) (k : String) :
    (∀ v, over k = some v → childEnv ambient over k = some v)
    ∧ (over k = none → k ≠ hydraKey → childEnv ambient over k = ambient k)
    ∧ (over k = none → k = hydraKey → childEnv ambient over k = some ("1"))
    ∧ (∀ gpuId : Nat, (k = cudaKey → workerEnv ambient gpuId k = some (toString gpuId))
        ∧ (k ≠ cudaKey → workerEnv ambient gpuId k = ambient k)) := by
  refine ⟨fun v hv => ?_, fun hn hk => ?_, fun hn hk => ?_, fun gpuId => ⟨fun hk => ?_, fun hk => ?_⟩⟩
  · simp [childEnv, updEnv, hv]
  · simp [childEnv, updEnv, hn, hydraDefault, hk]
  · subst hk
    simp [childEnv, updEnv, hn, hydraDefault]
  · simp [workerEnv, updEnv, hk]
  · simp [workerEnv, updEnv, hk]

/-- Witness for C9 (amended): concretely, with empty ambient environment,
a caller override of `HYDRA_FULL_ERROR` to `"0"` wins over the injected
default, and worker 3's environment binds the worker-identity variable
to `"3"`. -/
theorem childEnv_precedence_witness :
    childEnv emptyEnv (fun k => if k = hydraKey then some ("0") else none) hydraKey = some ("0")
    ∧ workerEnv emptyEnv 3 cudaKey = some (toString 3) := by
  constructor
  · exact (childEnv_precedence emptyEnv (fun k => if k = hydraKey then some ("0") else none) hydraKey).1 ("0") (by simp)
  · exact ((childEnv_precedence emptyEnv (fun _ => none) cudaKey).2.2.2 3).1 rfl

/-! ## Orchestrator event traces (`orchestrator.py`) -/

/-- Observable side effects of the orchestrator, in program order:
running the stage function on a whole input (`execDirect`), performing
the split (`splitEv`), running the stage function on one batch
(`execBatch`), writing a batch checkpoint (`writeBatchCp`), producing the
merged stage output (`mergeOut`), and writing a stage-level checkpoint
(`writeStageCp`). -/
inductive Ev where
  | execDirect (s : Nat)
  | splitEv (s : Nat)
  | execBatch (s i : Nat)
  | writeBatchCp (s i : Nat)
  | mergeOut (s : Nat)
  | writeStageCp (s : Nat)
  deriving DecidableEq, Repr

/-- The batch loop of `_run_batched_stage` (`for i, batch_input in
enumerate(batch_inputs): ...`) over the list of batch indices: a batch
whose checkpoint exists (`bcp i`) is skipped; otherwise the stage
function runs on it and, if it returns normally (`ok i`), the batch
checkpoint is written; if it raises, the loop stops there and the
exception propagates (`some i`). -/
def batchLoopTrace (s : Nat) (ok bcp : Nat → Bool) : List Nat → List Ev × Option Nat
  | [] => ([], none)
  | i :: rest =>
    if bcp i then batchLoopTrace s ok bcp rest
    else if ok i then
      let r := batchLoopTrace s ok bcp rest
      (Ev.execBatch s i :: Ev.writeBatchCp s i :: r.1, r.2)
    else ([Ev.execBatch s i], some i)

/-- The two events a successfully processed batch contributes. -/
def batchPair (s i : Nat) : List Ev := [Ev.execBatch s i, Ev.writeBatchCp s i]

def evExecIdx : Ev → Option Nat
  | .execBatch _ i => some i
  | _ => none

def evWriteIdx : Ev → Option Nat
  | .writeBatchCp _ i => some i
  | _ => none

/-- The batch indices on which the stage function was invoked, in
invocation order. -/
def executedIdx (tr : List Ev) : List Nat := tr.filterMap evExecIdx

/-- The batch indices whose checkpoint was written, in write order. -/
def writtenIdx (tr : List Ev) : List Nat := tr.filterMap evWriteIdx

theorem executedIdx_flatMap (s : Nat) (l : List Nat) :
    executedIdx (l.flatMap (batchPair s)) = l := by
  induction l with
  | nil => rfl
  | cons a t ih => simp [executedIdx, batchPair, evExecIdx] at ih ⊢; exact ih

theorem writtenIdx_flatMap (s : Nat) (l : List Nat) :
    writtenIdx (l.flatMap (batchPair s)) = l := by
  induction l with
  | nil => rfl
  | cons a t ih => simp [writtenIdx, batchPair, evWriteIdx] at ih ⊢; exact ih

theorem mem_flatMap_batchPair {ev : Ev} {s : Nat} {l : List Nat}
    (h : ev ∈ l.flatMap (batchPair s)) :
    ∃ i ∈ l, ev = Ev.execBatch s i ∨ ev = Ev.writeBatchCp s i := by
  rcases List.mem_flatMap.mp h with ⟨i, hi, hev⟩
  rcases List.mem_pair.mp hev with h1 | h1
  · exact ⟨i, hi, Or.inl h1⟩
  · exact ⟨i, hi, Or.inr h1⟩

/-- Characterization of a fully successful batch loop: every
non-checkpointed batch is executed and checkpointed, in list order. -/
theorem batchLoop_none (s : Nat) (ok bcp : Nat → Bool) :
    ∀ l : List Nat, (batchLoopTrace s ok bcp l).2 = none →
      (batchLoopTrace s ok bcp l).1 = (l.filter (fun j => !bcp j)).flatMap (batchPair s)
      ∧ ∀ j ∈ l, bcp j = false → ok j = true := by
  intro l
  induction l with
  | nil => intro _; exact ⟨rfl, by simp⟩
  | cons a t ih =>
    intro herr
    by_cases hb : bcp a
    · have herr' : (batchLoopTrace s ok bcp t).2 = none := by
        simpa [batchLoopTrace, hb] using herr
      rcases ih herr' with ⟨h1, h2⟩
      refine ⟨?_, ?_⟩
      · simpa [batchLoopTrace, hb] using h1
      · intro j hj hbj
        rcases List.mem_cons.mp hj with rfl | hj'
        · exact absurd hb (by simp [hbj])
        · exact h2 j hj' hbj
    · by_cases ho : ok a
      · have herr' : (batchLoopTrace s ok bcp t).2 = none := by
          simpa [batchLoopTrace, hb, ho] using herr
        rcases ih herr' with ⟨h1, h2⟩
        refine ⟨?_, ?_⟩
        · simp [batchLoopTrace, hb, ho, h1, batchPair]
        · intro j hj hbj
          rcases List.mem_cons.mp hj with rfl | hj'
          · exact ho
          · exact h2 j hj' hbj
      · exact absurd herr (by simp [batchLoopTrace, hb, ho])

/-- Characterization of a failing batch loop: the failure happens at the
first non-checkpointed batch whose stage function raises; every earlier
non-checkpointed batch was executed and checkpointed, and nothing after
the failing batch was started. -/
theorem batchLoop_some (s : Nat) (ok bcp : Nat → Bool) :
    ∀ (l : List Nat) (i : Nat), (batchLoopTrace s ok bcp l).2 = some i →
      bcp i = false ∧ ok i = false ∧
      ∃ l1 l2, l = l1 ++ i :: l2
        ∧ (batchLoopTrace s ok bcp l).1
            = (l1.filter (fun j => !bcp j)).flatMap (batchPair s) ++ [Ev.execBatch s i]
        ∧ ∀ j ∈ l1, bcp j = false → ok j = true := by
  intro l
  induction l with
  | nil => intro i h; exact absurd h (by simp [batchLoopTrace])
  | cons a t ih =>
    intro i herr
    by_cases hb : bcp a
    · have herr' : (batchLoopTrace s ok bcp t).2 = some i := by
        simpa [batchLoopTrace, hb] using herr
      rcases ih i herr' with ⟨hbi, hoi, l1, l2, hdec, htr, hpre⟩
      refine ⟨hbi, hoi, a :: l1, l2, by simp [hdec], ?_, ?_⟩
      · simpa [batchLoopTrace, hb] using htr
      · intro j hj hbj
        rcases List.mem_cons.mp hj with rfl | hj'
        · exact absurd hb (by simp [hbj])
        · exact hpre j hj' hbj
    · by_cases ho : ok a
      · have herr' : (batchLoopTrace s ok bcp t).2 = some i := by
          simpa [batchLoopTrace, hb, ho] using herr
        rcases ih i herr' with ⟨hbi, hoi, l1, l2, hdec, htr, hpre⟩
        refine ⟨hbi, hoi, a :: l1, l2, by simp [hdec], ?_, ?_⟩
        · simp [batchLoopTrace, hb, ho, htr, batchPair]
        · intro j hj hbj
          rcases List.mem_cons.mp hj with rfl | hj'
          · exact ho
          · exact hpre j hj' hbj
      · have : a = i := by simpa [batchLoopTrace, hb, ho] using herr
        subst this
        exact ⟨by simpa using hb, by simpa using ho, [], t, rfl,
          by simp [batchLoopTrace, hb, ho], by simp⟩

/-- Every event emitted by the batch loop belongs to stage `s` and to a
non-checkpointed batch index from the input list. -/
theorem batchLoop_mem (s : Nat) (ok bcp : Nat → Bool) (l : List Nat) (ev : Ev)
    (h : ev ∈ (batchLoopTrace s ok bcp l).1) :
    ∃ i ∈ l, bcp i = false ∧ (ev = Ev.execBatch s i ∨ ev = Ev.writeBatchCp s i) := by
  cases herr : (batchLoopTrace s ok bcp l).2 with
  | none =>
    rcases batchLoop_none s ok bcp l herr with ⟨htr, _⟩
    rw [htr] at h
    rcases mem_flatMap_batchPair h with ⟨i, hi, hev⟩
    rcases List.mem_filter.mp hi with ⟨hil, hbi⟩
    exact ⟨i, hil, by simpa using hbi, hev⟩
  | some i0 =>
    rcases batchLoop_some s ok bcp l i0 herr with ⟨hb, _, l1, l2, hdec, htr, _⟩
    rw [htr] at h
    rcases List.mem_append.mp h with h1 | h1
    · rcases mem_flatMap_batchPair h1 with ⟨i, hi, hev⟩
      rcases List.mem_filter.mp hi with ⟨hil, hbi⟩
      exact ⟨i, by rw [hdec]; exact List.mem_append_left _ hil, by simpa using hbi, hev⟩
    · have : ev = Ev.execBatch s i0 := by simpa using h1
      exact ⟨i0, by rw [hdec]; exact List.mem_append_right _ (List.mem_cons_self i0 l2),
        hb, Or.inl this⟩

theorem count_writeBatchCp_flatMap (s s0 i : Nat) (l : List Nat) (hnd : l.Nodup) :
    (l.flatMap (batchPair s)).count (Ev.writeBatchCp s0 i) ≤ 1 := by
  induction l with
  | nil => simp
  | cons a t ih =>
    rcases List.nodup_cons.mp hnd with ⟨hna, hnt⟩
    have hc : ((a :: t).flatMap (batchPair s)).count (Ev.writeBatchCp s0 i)
        = (batchPair s a).count (Ev.writeBatchCp s0 i)
          + (t.flatMap (batchPair s)).count (Ev.writeBatchCp s0 i) := by
      simp [List.count_append]
    by_cases hsa : Ev.writeBatchCp s0 i = Ev.writeBatchCp s a
    · have hzero : (t.flatMap (batchPair s)).count (Ev.writeBatchCp s0 i) = 0 := by
        apply List.count_eq_zero.mpr
        intro hmem
        rcases mem_flatMap_batchPair hmem with ⟨j, hj, hev⟩
        rcases hev with hev | hev
        · rw [hsa] at hev
          exact Ev.noConfusion hev
        · rw [hsa] at hev
          have : a = j := by simpa using hev
          subst this
          exact hna hj
      have hone : (batchPair s a).count (Ev.writeBatchCp s0 i) = 1 := by
        rw [hsa]
        simp [batchPair]
      rw [hc, hzero, hone]
    · have hone : (batchPair s a).count (Ev.writeBatchCp s0 i) = 0 := by
        apply List.count_eq_zero.mpr
        intro hmem
        rcases List.mem_pair.mp hmem with hev | hev
        · exact Ev.noConfusion hev
        · exact hsa hev
      rw [hc, hone]
      simpa using ih hnt

/-- Within one pass of the batch loop, no batch checkpoint is written
more than once. -/
theorem batchLoop_count_writeBatchCp (s s0 i : Nat) (ok bcp : Nat → Bool)
    (l : List Nat) (hnd : l.Nodup) :
    ((batchLoopTrace s ok bcp l).1).count (Ev.writeBatchCp s0 i) ≤ 1 := by
  cases herr : (batchLoopTrace s ok bcp l).2 with
  | none =>
    rcases batchLoop_none s ok bcp l herr with ⟨htr, _⟩
    rw [htr]
    exact count_writeBatchCp_flatMap s s0 i _ (hnd.filter _)
  | some i0 =>
    rcases batchLoop_some s ok bcp l i0 herr with ⟨_, _, l1, l2, hdec, htr, _⟩
    have hnd1 : l1.Nodup := by
      refine List.Sublist.nodup ?_ hnd
      rw [hdec]
      exact List.sublist_append_left l1 (i0 :: l2)
    rw [htr, List.count_append]
    have h2 : ([Ev.execBatch s i0].count (Ev.writeBatchCp s0 i)) = 0 := by
      apply List.count_eq_zero.mpr
      intro hmem
      have := List.mem_singleton.mp hmem
      exact Ev.noConfusion this
    rw [h2]
    simpa using count_writeBatchCp_flatMap s s0 i _ (hnd1.filter _)

theorem executedIdx_append (a b : List Ev) :
    executedIdx (a ++ b) = executedIdx a ++ executedIdx b :=
  List.filterMap_append a b evExecIdx

theorem writtenIdx_append (a b : List Ev) :
    writtenIdx (a ++ b) = writtenIdx a ++ writtenIdx b :=
  List.filterMap_append a b evWriteIdx

/-- Claim C2: in the batch loop of the batched stage runner, over batch
indices `0..n-1`: batches are processed strictly in ascending index
order; a batch whose checkpoint exists is never executed; if no batch
fails, exactly the non-checkpointed batches are executed (in index
order); a batch checkpoint is written exactly for the executed batches
whose stage function returned successfully; and if the stage function
fails on batch `i`, the error propagates (`some i`), no checkpoint is
written for `i`, and no batch with index greater than `i` is started. -/
theorem batched_stage_runner_loop (s : Nat) (ok bcp : Nat → Bool) (n : Nat) :
    List.Pairwise (· < ·) (executedIdx (batchLoopTrace s ok bcp (List.range n)).1)
    ∧ (∀ i, bcp i = true → i ∉ executedIdx (batchLoopTrace s ok bcp (List.range n)).1)
    ∧ ((batchLoopTrace s ok bcp (List.range n)).2 = none →
        executedIdx (batchLoopTrace s ok bcp (List.range n)).1
          = (List.range n).filter (fun j => !bcp j))
    ∧ writtenIdx (batchLoopTrace s ok bcp (List.range n)).1
        = (executedIdx (batchLoopTrace s ok bcp (List.range n)).1).filter ok
    ∧ (∀ i, (batchLoopTrace s ok bcp (List.range n)).2 = some i →
        ok i = false
        ∧ i ∉ writtenIdx (batchLoopTrace s ok bcp (List.range n)).1
        ∧ ∀ j ∈ executedIdx (batchLoopTrace s ok bcp (List.range n)).1, j ≤ i) := by
  cases herr : (batchLoopTrace s ok bcp (List.range n)).2 with
  | none =>
    rcases batchLoop_none s ok bcp (List.range n) herr with ⟨htr, hok⟩
    have hexec : executedIdx (batchLoopTrace s ok bcp (List.range n)).1
        = (List.range n).filter (fun j => !bcp j) := by
      rw [htr, executedIdx_flatMap]
    have hwr : writtenIdx (batchLoopTrace s ok bcp (List.range n)).1
        = (List.range n).filter (fun j => !bcp j) := by
      rw [htr, writtenIdx_flatMap]
    refine ⟨?_, ?_, fun _ => hexec, ?_, ?_⟩
    · rw [hexec]
      exact (List.pairwise_lt_range n).filter _
    · intro i hb hmem
      rw [hexec] at hmem
      rcases List.mem_filter.mp hmem with ⟨_, hbi⟩
      simp [hb] at hbi
    · rw [hexec, hwr]
      symm
      apply List.filter_eq_self.mpr
      intro j hj
      rcases List.mem_filter.mp hj with ⟨hjr, hbj⟩
      exact hok j hjr (by simpa using hbj)
    · intro i hi
      exact Option.noConfusion hi
  | some i0 =>
    rcases batchLoop_some s ok bcp (List.range n) i0 herr with ⟨hb, ho, l1, l2, hdec, htr, hpre⟩
    have hexec : executedIdx (batchLoopTrace s ok bcp (List.range n)).1
        = (l1.filter (fun j => !bcp j)) ++ [i0] := by
      rw [htr, executedIdx_append, executedIdx_flatMap]
      simp [executedIdx, evExecIdx]
    have hwr : writtenIdx (batchLoopTrace s ok bcp (List.range n)).1
        = l1.filter (fun j => !bcp j) := by
      rw [htr, writtenIdx_append, writtenIdx_flatMap]
      simp [writtenIdx, evWriteIdx]
    have hpw := List.pairwise_lt_range n
    rw [hdec] at hpw
    rcases List.pairwise_append.mp hpw with ⟨hpw1, _, hcross⟩
    have hlt : ∀ a ∈ l1, a < i0 := fun a ha => hcross a ha i0 (List.mem_cons_self i0 l2)
    refine ⟨?_, ?_, ?_, ?_, ?_⟩
    · rw [hexec]
      apply List.pairwise_append.mpr
      refine ⟨hpw1.filter _, List.pairwise_singleton _ _, ?_⟩
      intro a ha b hbmem
      have hb' := List.mem_singleton.mp hbmem
      subst hb'
      exact hlt a (List.mem_filter.mp ha).1
    · intro i hbi hmem
      rw [hexec] at hmem
      rcases List.mem_append.mp hmem with h1 | h1
      · rcases List.mem_filter.mp h1 with ⟨_, hbj⟩
        simp [hbi] at hbj
      · have := List.mem_singleton.mp h1
        subst this
        rw [hbi] at hb
        exact Bool.noConfusion hb
    · intro hnone
      exact Option.noConfusion hnone
    · rw [hexec, hwr, List.filter_append]
      have h1 : (l1.filter (fun j => !bcp j)).filter ok = l1.filter (fun j => !bcp j) := by
        apply List.filter_eq_self.mpr
        intro j hj
        rcases List.mem_filter.mp hj with ⟨hjl, hbj⟩
        exact hpre j hjl (by simpa using hbj)
      rw [h1]
      simp [ho]
    · intro i hi
      have : i0 = i := Option.some.inj hi
      subst this
      refine ⟨ho, ?_, ?_⟩
      · intro hmem
        rw [hwr] at hmem
        have := hlt i0 (List.mem_filter.mp hmem).1
        exact absurd this (lt_irrefl i0)
      · intro j hj
        rw [hexec] at hj
        rcases List.mem_append.mp hj with h1 | h1
        · exact le_of_lt (hlt j (List.mem_filter.mp h1).1)
        · exact le_of_eq (List.mem_singleton.mp h1)

/-- Witness for C2: with three batches, no prior checkpoints, and the
stage function failing on batch 1, the loop reports failure at batch 1,
whose stage function indeed failed and whose checkpoint was not
written. -/
theorem batched_stage_runner_loop_witness :
    (fun i => !(i == 1)) 1 = false
    ∧ 1 ∉ writtenIdx (batchLoopTrace 2 (fun i => !(i == 1)) (fun _ => false) (List.range 3)).1 := by
  have h := (batched_stage_runner_loop 2 (fun i => !(i == 1)) (fun _ => false) 3).2.2.2.2 1 (by decide)
  exact ⟨h.1, h.2.1⟩

/-- The inputs and environment of one batched stage
(`_run_batched_stage`): the stage's input collection, its batch-size
constant, whether the `.split_complete` marker exists (and if so the
previously split batches found on disk), and the opaque stage function's
behaviour — success of a direct whole-input run (`directOk`), success on
each batch (`ok`), and which batch checkpoints already exist (`bcp`). -/
structure StageEnv where
  lines : List String
  batchSize : Nat
  splitDone : Bool
  prevBatches : List (List String)
  directOk : Bool
  ok : Nat → Bool
  bcp : Nat → Bool

/-- The batch inputs the runner iterates over: the previously split
batches when the split marker exists, otherwise the result of splitting
now. -/
def stageBatches (e : StageEnv) : List (List String) :=
  if e.splitDone then e.prevBatches else split e.lines e.batchSize

/-- Model of `_run_batched_stage` as an event trace plus a success flag: when the
entry count is at most the batch size the stage function runs once on
the whole input; otherwise the input is split (unless already split),
the batch loop runs, and on full success the batch outputs are merged
into the stage output. -/
def runBatchedStageTrace (s : Nat) (e : StageEnv) : List Ev × Bool :=
  if count_entries e.lines ≤ e.batchSize then
    ([Ev.execDirect s], e.directOk)
  else
    let pre : List Ev := if e.splitDone then [] else [Ev.splitEv s]
    let r := batchLoopTrace s e.ok e.bcp (List.range (stageBatches e).length)
    match r.2 with
    | none => (pre ++ r.1 ++ [Ev.mergeOut s], true)
    | some _ => (pre ++ r.1, false)

theorem runBatched_small (s : Nat) (e : StageEnv)
    (h : count_entries e.lines ≤ e.batchSize) :
    runBatchedStageTrace s e = ([Ev.execDirect s], e.directOk) := by
  unfold runBatchedStageTrace
  rw [if_pos h]

theorem runBatched_big_none (s : Nat) (e : StageEnv)
    (h : ¬ count_entries e.lines ≤ e.batchSize)
    (herr : (batchLoopTrace s e.ok e.bcp (List.range (stageBatches e).length)).2 = none) :
    runBatchedStageTrace s e =
      ((if e.splitDone then [] else [Ev.splitEv s])
        ++ (batchLoopTrace s e.ok e.bcp (List.range (stageBatches e).length)).1
        ++ [Ev.mergeOut s], true) := by
  unfold runBatchedStageTrace
  rw [if_neg h]
  simp only [herr]

theorem runBatched_big_some (s : Nat) (e : StageEnv) (i0 : Nat)
    (h : ¬ count_entries e.lines ≤ e.batchSize)
    (herr : (batchLoopTrace s e.ok e.bcp (List.range (stageBatches e).length)).2 = some i0) :
    runBatchedStageTrace s e =
      ((if e.splitDone then [] else [Ev.splitEv s])
        ++ (batchLoopTrace s e.ok e.bcp (List.range (stageBatches e).length)).1, false) := by
  unfold runBatchedStageTrace
  rw [if_neg h]
  simp only [herr]

/-- Claim C10: for every input collection with zero records and every
`batch_size ≥ 1`, the batched stage runner takes the direct-run path
(since `0 ≤ batch_size`) and invokes the stage function exactly once on
the whole empty input; neither the split step nor any batch execution is
ever reached. -/
theorem zero_records_direct_run (s : Nat) (e : StageEnv)
    (h0 : count_entries e.lines = 0) (hbs : 1 ≤ e.batchSize) :
    runBatchedStageTrace s e = ([Ev.execDirect s], e.directOk) :=
  runBatched_small s e (by omega)

/-- Witness for C10: a concrete empty input with `batch_size = 1000`
leads to a single direct stage invocation. -/
theorem zero_records_direct_run_witness :
    count_entries ([] : List String) = 0 ∧ (1 : Nat) ≤ 1000
    ∧ runBatchedStageTrace 2
        ⟨[], 1000, false, [], true, fun _ => true, fun _ => false⟩
        = ([Ev.execDirect 2], true) :=
  ⟨rfl, by decide,
    zero_records_direct_run 2 ⟨[], 1000, false, [], true, fun _ => true, fun _ => false⟩
      rfl (by decide)⟩

/-- One stage of `run`: if the stage-level checkpoint exists the stage is
skipped entirely; otherwise its body runs and, only if the body returned
success, the stage-level checkpoint is written afterwards. -/
def stageStep (s : Nat) (scp : Bool) (body : List Ev × Bool) : List Ev × Bool :=
  if scp then ([], true)
  else if body.2 then (body.1 ++ [Ev.writeStageCp s], true)
  else (body.1, false)

/-- The whole orchestrator state feeding one `run` call: which
stage-level checkpoints exist, the success of the un-batched stage 1
(RFdiffusion), and the batched-stage environments for stage 2
(ProteinMPNN) and stage 3 (RF2). -/
structure OrchEnv where
  scp : Nat → Bool
  stage1Ok : Bool
  stage2 : StageEnv
  stage3 : StageEnv

def stage1Seg (env : OrchEnv) : List Ev × Bool :=
  stageStep 1 (env.scp 1) ([Ev.execDirect 1], env.stage1Ok)

def stage2Seg (env : OrchEnv) : List Ev × Bool :=
  stageStep 2 (env.scp 2) (runBatchedStageTrace 2 env.stage2)

def stage3Seg (env : OrchEnv) : List Ev × Bool :=
  stageStep 3 (env.scp 3) (runBatchedStageTrace 3 env.stage3)

/-- Model of `PipelineOrchestrator.run`: the three stages in fixed order; a stage
failure propagates immediately, leaving the later stages unstarted. -/
def orchRun (env : OrchEnv) : List Ev × Bool :=
  let r1 := stage1Seg env
  if r1.2 then
    let r2 := stage2Seg env
    if r2.2 then
      let r3 := stage3Seg env
      (r1.1 ++ r2.1 ++ r3.1, r3.2)
    else (r1.1 ++ r2.1, false)
  else (r1.1, false)

/-- The event trace of one orchestrator run. -/
def orchTrace (env : OrchEnv) : List Ev := (orchRun env).1

theorem orchTrace_shape (env : OrchEnv) :
    ((stage1Seg env).2 = false ∧ orchTrace env = (stage1Seg env).1)
    ∨ ((stage1Seg env).2 = true ∧ (stage2Seg env).2 = false
        ∧ orchTrace env = (stage1Seg env).1 ++ (stage2Seg env).1)
    ∨ ((stage1Seg env).2 = true ∧ (stage2Seg env).2 = true
        ∧ orchTrace env = (stage1Seg env).1 ++ (stage2Seg env).1 ++ (stage3Seg env).1) := by
  unfold orchTrace orchRun
  by_cases h1 : (stage1Seg env).2
  · by_cases h2 : (stage2Seg env).2
    · right; right
      exact ⟨h1, h2, by simp [h1, h2]⟩
    · right; left
      exact ⟨h1, by simpa using h2, by simp [h1, h2]⟩
  · left
    exact ⟨by simpa using h1, by simp [h1]⟩

theorem stageStep_mem {s : Nat} {scp : Bool} {body : List Ev × Bool} {ev : Ev}
    (h : ev ∈ (stageStep s scp body).1) : ev ∈ body.1 ∨ ev = Ev.writeStageCp s := by
  unfold stageStep at h
  by_cases hc : scp
  · rw [if_pos hc] at h
    exact absurd h (List.not_mem_nil ev)
  · rw [if_neg hc] at h
    by_cases hb : body.2
    · rw [if_pos hb] at h
      rcases List.mem_append.mp h with h1 | h1
      · exact Or.inl h1
      · exact Or.inr (List.mem_singleton.mp h1)
    · rw [if_neg hb] at h
      exact Or.inl h

theorem writeStageCp_mem_stageStep {s s' : Nat} {scp : Bool} {body : List Ev × Bool}
    (hbody : Ev.writeStageCp s' ∉ body.1)
    (h : Ev.writeStageCp s' ∈ (stageStep s scp body).1) :
    s' = s ∧ scp = false ∧ body.2 = true
    ∧ (stageStep s scp body).1 = body.1 ++ [Ev.writeStageCp s] := by
  unfold stageStep at h ⊢
  by_cases hc : scp
  · rw [if_pos hc] at h
    exact absurd h (List.not_mem_nil _)
  · rw [if_neg hc] at h
    by_cases hb : body.2
    · rw [if_pos hb] at h ⊢
      rcases List.mem_append.mp h with h1 | h1
      · exact absurd h1 hbody
      · have := List.mem_singleton.mp h1
        have hs : s' = s := by
          injection this
        exact ⟨hs, by simpa using hc, hb, by rw [if_neg hc]⟩
    · rw [if_neg hb] at h
      exact absurd h hbody

theorem batchLoop_no_writeStageCp (s s' : Nat) (ok bcp : Nat → Bool) (l : List Nat) :
    Ev.writeStageCp s' ∉ (batchLoopTrace s ok bcp l).1 := by
  intro h
  rcases batchLoop_mem s ok bcp l _ h with ⟨i, _, _, hev | hev⟩
  · exact Ev.noConfusion hev
  · exact Ev.noConfusion hev

theorem runBatched_no_writeStageCp (s s' : Nat) (e : StageEnv) :
    Ev.writeStageCp s' ∉ (runBatchedStageTrace s e).1 := by
  intro h
  by_cases hsm : count_entries e.lines ≤ e.batchSize
  · rw [runBatched_small s e hsm] at h
    exact Ev.noConfusion (List.mem_singleton.mp h)
  · cases herr : (batchLoopTrace s e.ok e.bcp (List.range (stageBatches e).length)).2 with
    | none =>
      rw [runBatched_big_none s e hsm herr] at h
      rcases List.mem_append.mp h with h1 | h1
      · rcases List.mem_append.mp h1 with h2 | h2
        · by_cases hsd : e.splitDone
          · rw [if_pos hsd] at h2
            exact absurd h2 (List.not_mem_nil _)
          · rw [if_neg hsd] at h2
            exact Ev.noConfusion (List.mem_singleton.mp h2)
        · exact batchLoop_no_writeStageCp s s' e.ok e.bcp _ h2
      · exact Ev.noConfusion (List.mem_singleton.mp h1)
    | some i0 =>
      rw [runBatched_big_some s e i0 hsm herr] at h
      rcases List.mem_append.mp h with h1 | h1
      · by_cases hsd : e.splitDone
        · rw [if_pos hsd] at h1
          exact absurd h1 (List.not_mem_nil _)
        · rw [if_neg hsd] at h1
          exact Ev.noConfusion (List.mem_singleton.mp h1)
      · exact batchLoop_no_writeStageCp s s' e.ok e.bcp _ h1

theorem stage1Seg_no_writeStageCp (env : OrchEnv) (s' : Nat) (hne : s' ≠ 1) :
    Ev.writeStageCp s' ∉ (stage1Seg env).1 := by
  intro h
  rcases stageStep_mem h with h1 | h1
  · rcases List.mem_singleton.mp h1 with h2
    exact Ev.noConfusion h2
  · have : s' = 1 := by injection h1
    exact hne this

theorem runBatched_mem_writeBatchCp {s s' i : Nat} {e : StageEnv}
    (h : Ev.writeBatchCp s' i ∈ (runBatchedStageTrace s e).1) :
    s' = s ∧ e.bcp i = false := by
  by_cases hsm : count_entries e.lines ≤ e.batchSize
  · rw [runBatched_small s e hsm] at h
    exact absurd (List.mem_singleton.mp h) (fun hx => Ev.noConfusion hx)
  · have hloop : Ev.writeBatchCp s' i ∈
        (batchLoopTrace s e.ok e.bcp (List.range (stageBatches e).length)).1 → s' = s ∧ e.bcp i = false := by
      intro hm
      rcases batchLoop_mem s e.ok e.bcp _ _ hm with ⟨j, _, hbj, hev | hev⟩
      · exact Ev.noConfusion hev
      · have h1 : s' = s := by injection hev
        have h2 : i = j := by injection hev
        exact ⟨h1, by rw [h2]; exact hbj⟩
    have hpre : Ev.writeBatchCp s' i ∉ (if e.splitDone then ([] : List Ev) else [Ev.splitEv s]) := by
      by_cases hsd : e.splitDone
      · rw [if_pos hsd]
        exact List.not_mem_nil _
      · rw [if_neg hsd]
        intro hm
        exact Ev.noConfusion (List.mem_singleton.mp hm)
    cases herr : (batchLoopTrace s e.ok e.bcp (List.range (stageBatches e).length)).2 with
    | none =>
      rw [runBatched_big_none s e hsm herr] at h
      rcases List.mem_append.mp h with h1 | h1
      · rcases List.mem_append.mp h1 with h2 | h2
        · exact absurd h2 hpre
        · exact hloop h2
      · exact absurd (List.mem_singleton.mp h1) (fun hx => Ev.noConfusion hx)
    | some i0 =>
      rw [runBatched_big_some s e i0 hsm herr] at h
      rcases List.mem_append.mp h with h1 | h1
      · exact absurd h1 hpre
      · exact hloop h1

theorem runBatched_count_writeBatchCp (s s0 i : Nat) (e : StageEnv) :
    ((runBatchedStageTrace s e).1).count (Ev.writeBatchCp s0 i)
      ≤ if s0 = s then 1 else 0 := by
  by_cases hs : s0 = s
  · rw [if_pos hs]
    by_cases hsm : count_entries e.lines ≤ e.batchSize
    · rw [runBatched_small s e hsm]
      simp
    · have hloop := batchLoop_count_writeBatchCp s s0 i e.ok e.bcp
        (List.range (stageBatches e).length) (List.nodup_range _)
      have hpre : ((if e.splitDone then ([] : List Ev) else [Ev.splitEv s])).count
          (Ev.writeBatchCp s0 i) = 0 := by
        by_cases hsd : e.splitDone
        · rw [if_pos hsd]; rfl
        · rw [if_neg hsd]
          apply List.count_eq_zero.mpr
          intro hm
          exact Ev.noConfusion (List.mem_singleton.mp hm)
      cases herr : (batchLoopTrace s e.ok e.bcp (List.range (stageBatches e).length)).2 with
      | none =>
        rw [runBatched_big_none s e hsm herr]
        simp only [List.count_append, hpre]
        have hm : (([Ev.mergeOut s]).count (Ev.writeBatchCp s0 i)) = 0 := by
          apply List.count_eq_zero.mpr
          intro hm
          exact Ev.noConfusion (List.mem_singleton.mp hm)
        rw [hm]
        omega
      | some i0 =>
        rw [runBatched_big_some s e i0 hsm herr]
        simp only [List.count_append, hpre]
        omega
  · rw [if_neg hs]
    apply Nat.le_of_eq
    apply List.count_eq_zero.mpr
    intro hm
    exact hs (runBatched_mem_writeBatchCp hm).1

/-- A batched stage that reports success on the batch path has produced
the merged output and has a checkpoint (pre-existing or freshly written)
for every one of its batches. -/
theorem runBatched_success_cp (s : Nat) (e : StageEnv)
    (h2 : (runBatchedStageTrace s e).2 = true)
    (hbig : e.batchSize < count_entries e.lines) :
    Ev.mergeOut s ∈ (runBatchedStageTrace s e).1
    ∧ ∀ i < (stageBatches e).length,
        e.bcp i = true ∨ Ev.writeBatchCp s i ∈ (runBatchedStageTrace s e).1 := by
  have hsm : ¬ count_entries e.lines ≤ e.batchSize := by omega
  cases herr : (batchLoopTrace s e.ok e.bcp (List.range (stageBatches e).length)).2 with
  | some i0 =>
    rw [runBatched_big_some s e i0 hsm herr] at h2
    exact Bool.noConfusion h2
  | none =>
    rcases batchLoop_none s e.ok e.bcp _ herr with ⟨htr, _⟩
    have htrace := runBatched_big_none s e hsm herr
    constructor
    · rw [htrace]
      apply List.mem_append_right
      exact List.mem_singleton.mpr rfl
    · intro i hi
      by_cases hb : e.bcp i
      · exact Or.inl hb
      · right
        rw [htrace]
        apply List.mem_append_left
        apply List.mem_append_right
        rw [htr]
        apply List.mem_flatMap.mpr
        refine ⟨i, ?_, ?_⟩
        · apply List.mem_filter.mpr
          exact ⟨List.mem_range.mpr hi, by simp [hb]⟩
        · exact List.mem_cons_of_mem _ (List.mem_singleton.mpr rfl)

theorem stageStep_count_writeStageCp (s0 s : Nat) (scp : Bool) (body : List Ev × Bool)
    (hbody : Ev.writeStageCp s0 ∉ body.1) :
    ((stageStep s scp body).1).count (Ev.writeStageCp s0) ≤ if s0 = s then 1 else 0 := by
  have hzero : body.1.count (Ev.writeStageCp s0) = 0 := List.count_eq_zero.mpr hbody
  unfold stageStep
  by_cases hc : scp
  · rw [if_pos hc]
    simp
  · rw [if_neg hc]
    by_cases hb : body.2
    · rw [if_pos hb]
      simp only [List.count_append, hzero]
      by_cases hs : s0 = s
      · rw [if_pos hs, hs]
        simp
      · rw [if_neg hs]
        have : (([Ev.writeStageCp s]).count (Ev.writeStageCp s0)) = 0 := by
          apply List.count_eq_zero.mpr
          intro hm
          have := List.mem_singleton.mp hm
          exact hs (by injection this)
        rw [this]
    · rw [if_neg hb]
      rw [hzero]
      simp

theorem stageStep_count_writeBatchCp (s s0 i : Nat) (scp : Bool) (body : List Ev × Bool)
    (c : Nat) (hbody : body.1.count (Ev.writeBatchCp s0 i) ≤ c) :
    ((stageStep s scp body).1).count (Ev.writeBatchCp s0 i) ≤ c := by
  unfold stageStep
  by_cases hc : scp
  · rw [if_pos hc]
    simp
  · rw [if_neg hc]
    by_cases hb : body.2
    · rw [if_pos hb]
      simp only [List.count_append]
      have : (([Ev.writeStageCp s]).count (Ev.writeBatchCp s0 i)) = 0 := by
        apply List.count_eq_zero.mpr
        intro hm
        exact Ev.noConfusion (List.mem_singleton.mp hm)
      rw [this]
      omega
    · rw [if_neg hb]
      exact hbody

theorem stage1Seg_count_writeStageCp (env : OrchEnv) (s0 : Nat) :
    ((stage1Seg env).1).count (Ev.writeStageCp s0) ≤ if s0 = 1 then 1 else 0 := by
  apply stageStep_count_writeStageCp
  intro hm
  exact Ev.noConfusion (List.mem_singleton.mp hm)

theorem stage1Seg_count_writeBatchCp (env : OrchEnv) (s0 i : Nat) :
    ((stage1Seg env).1).count (Ev.writeBatchCp s0 i) = 0 := by
  apply List.count_eq_zero.mpr
  intro hm
  rcases stageStep_mem hm with h1 | h1
  · exact Ev.noConfusion (List.mem_singleton.mp h1)
  · exact Ev.noConfusion h1

theorem orchTrace_mem {env : OrchEnv} {ev : Ev} (h : ev ∈ orchTrace env) :
    ev ∈ (stage1Seg env).1 ∨ ev ∈ (stage2Seg env).1 ∨ ev ∈ (stage3Seg env).1 := by
  rcases orchTrace_shape env with ⟨_, hs⟩ | ⟨_, _, hs⟩ | ⟨_, _, hs⟩ <;> rw [hs] at h
  · exact Or.inl h
  · rcases List.mem_append.mp h with h1 | h1
    · exact Or.inl h1
    · exact Or.inr (Or.inl h1)
  · rcases List.mem_append.mp h with h1 | h1
    · rcases List.mem_append.mp h1 with h2 | h2
      · exact Or.inl h2
      · exact Or.inr (Or.inl h2)
    · exact Or.inr (Or.inr h1)

theorem orchTrace_count_le (env : OrchEnv) (ev : Ev) :
    (orchTrace env).count ev
      ≤ ((stage1Seg env).1).count ev + ((stage2Seg env).1).count ev
        + ((stage3Seg env).1).count ev := by
  rcases orchTrace_shape env with ⟨_, hs⟩ | ⟨_, _, hs⟩ | ⟨_, _, hs⟩ <;> rw [hs] <;>
    (try simp only [List.count_append]) <;> omega

/-- Claim C3: stage-level checkpoint invariants of one orchestrator run.
A stage-level checkpoint already present is never rewritten (1), and no
stage checkpoint is written more than once (2); the un-batched stage 1
checkpoint appears only right after a successful stage-1 execution (3);
for a batched stage on the batch path, the stage checkpoint appears only
after the merged output event and after every batch either already had a
checkpoint or had one written earlier in the trace (4)-(5); on the
direct path it appears only if the single synchronous execution
succeeded (6)-(7); batch checkpoints already present are never rewritten
(8)-(9) and no batch checkpoint is written more than once (10). -/
theorem stage_checkpoint_invariants (env : OrchEnv) :
    (∀ s, env.scp s = true → Ev.writeStageCp s ∉ orchTrace env)
    ∧ (∀ s, (orchTrace env).count (Ev.writeStageCp s) ≤ 1)
    ∧ (Ev.writeStageCp 1 ∈ orchTrace env → env.stage1Ok = true
        ∧ ∃ t, orchTrace env = Ev.execDirect 1 :: Ev.writeStageCp 1 :: t)
    ∧ (Ev.writeStageCp 2 ∈ orchTrace env →
        env.stage2.batchSize < count_entries env.stage2.lines →
        ∃ t1 t2, orchTrace env = t1 ++ Ev.writeStageCp 2 :: t2
          ∧ Ev.mergeOut 2 ∈ t1
          ∧ ∀ i < (stageBatches env.stage2).length,
              env.stage2.bcp i = true ∨ Ev.writeBatchCp 2 i ∈ t1)
    ∧ (Ev.writeStageCp 3 ∈ orchTrace env →
        env.stage3.batchSize < count_entries env.stage3.lines →
        ∃ t1 t2, orchTrace env = t1 ++ Ev.writeStageCp 3 :: t2
          ∧ Ev.mergeOut 3 ∈ t1
          ∧ ∀ i < (stageBatches env.stage3).length,
              env.stage3.bcp i = true ∨ Ev.writeBatchCp 3 i ∈ t1)
    ∧ (Ev.writeStageCp 2 ∈ orchTrace env →
        count_entries env.stage2.lines ≤ env.stage2.batchSize →
        env.stage2.directOk = true)
    ∧ (Ev.writeStageCp 3 ∈ orchTrace env →
        count_entries env.stage3.lines ≤ env.stage3.batchSize →
        env.stage3.directOk = true)
    ∧ (∀ i, env.stage2.bcp i = true → Ev.writeBatchCp 2 i ∉ orchTrace env)
    ∧ (∀ i, env.stage3.bcp i = true → Ev.writeBatchCp 3 i ∉ orchTrace env)
    ∧ (∀ s0 i, (orchTrace env).count (Ev.writeBatchCp s0 i) ≤ 1) := by
  have hseg2w : ∀ s', Ev.writeStageCp s' ∈ (stage2Seg env).1 →
      s' = 2 ∧ env.scp 2 = false ∧ (runBatchedStageTrace 2 env.stage2).2 = true
      ∧ (stage2Seg env).1 = (runBatchedStageTrace 2 env.stage2).1 ++ [Ev.writeStageCp 2] := by
    intro s' h
    have := writeStageCp_mem_stageStep (runBatched_no_writeStageCp 2 s' env.stage2) h
    rcases this with ⟨hs, hscp, hb, hseq⟩
    subst hs
    exact ⟨rfl, hscp, hb, hseq⟩
  have hseg3w : ∀ s', Ev.writeStageCp s' ∈ (stage3Seg env).1 →
      s' = 3 ∧ env.scp 3 = false ∧ (runBatchedStageTrace 3 env.stage3).2 = true
      ∧ (stage3Seg env).1 = (runBatchedStageTrace 3 env.stage3).1 ++ [Ev.writeStageCp 3] := by
    intro s' h
    have := writeStageCp_mem_stageStep (runBatched_no_writeStageCp 3 s' env.stage3) h
    rcases this with ⟨hs, hscp, hb, hseq⟩
    subst hs
    exact ⟨rfl, hscp, hb, hseq⟩
  have hseg1w : ∀ s', Ev.writeStageCp s' ∈ (stage1Seg env).1 →
      s' = 1 ∧ env.scp 1 = false ∧ env.stage1Ok = true
      ∧ (stage1Seg env).1 = [Ev.execDirect 1, Ev.writeStageCp 1] := by
    intro s' h
    have hb : Ev.writeStageCp s' ∉ [Ev.execDirect 1] := by
      intro hm
      exact Ev.noConfusion (List.mem_singleton.mp hm)
    have := writeStageCp_mem_stageStep hb h
    rcases this with ⟨hs, hscp, hok, hseq⟩
    subst hs
    exact ⟨rfl, hscp, hok, by simpa using hseq⟩
  refine ⟨?_, ?_, ?_, ?_, ?_, ?_, ?_, ?_, ?_, ?_⟩
  · -- (1) existing stage checkpoints are never rewritten
    intro s hscp hmem
    rcases orchTrace_mem hmem with h1 | h1 | h1
    · rcases hseg1w s h1 with ⟨rfl, hf, _, _⟩
      rw [hscp] at hf
      exact Bool.noConfusion hf
    · rcases hseg2w s h1 with ⟨rfl, hf, _, _⟩
      rw [hscp] at hf
      exact Bool.noConfusion hf
    · rcases hseg3w s h1 with ⟨rfl, hf, _, _⟩
      rw [hscp] at hf
      exact Bool.noConfusion hf
  · -- (2) each stage checkpoint is written at most once
    intro s
    have h1 := stage1Seg_count_writeStageCp env s
    have h2 := stageStep_count_writeStageCp s 2 (env.scp 2)
      (runBatchedStageTrace 2 env.stage2) (runBatched_no_writeStageCp 2 s env.stage2)
    have h3 := stageStep_count_writeStageCp s 3 (env.scp 3)
      (runBatchedStageTrace 3 env.stage3) (runBatched_no_writeStageCp 3 s env.stage3)
    have htot := orchTrace_count_le env (Ev.writeStageCp s)
    rw [show (stageStep 2 (env.scp 2) (runBatchedStageTrace 2 env.stage2)) = stage2Seg env from rfl] at h2
    rw [show (stageStep 3 (env.scp 3) (runBatchedStageTrace 3 env.stage3)) = stage3Seg env from rfl] at h3
    split_ifs at h1 h2 h3 <;> omega
  · -- (3) stage-1 checkpoint only right after a successful stage-1 run
    intro hmem
    have hin1 : Ev.writeStageCp 1 ∈ (stage1Seg env).1 := by
      rcases orchTrace_mem hmem with h1 | h1 | h1
      · exact h1
      · rcases hseg2w 1 h1 with ⟨hf, _⟩
        exact absurd hf (by decide)
      · rcases hseg3w 1 h1 with ⟨hf, _⟩
        exact absurd hf (by decide)
    rcases hseg1w 1 hin1 with ⟨_, _, hok, hseq⟩
    refine ⟨hok, ?_⟩
    rcases orchTrace_shape env with ⟨_, hs⟩ | ⟨_, _, hs⟩ | ⟨_, _, hs⟩ <;> rw [hs, hseq]
    · exact ⟨[], rfl⟩
    · exact ⟨(stage2Seg env).1, rfl⟩
    · exact ⟨(stage2Seg env).1 ++ (stage3Seg env).1, by simp⟩
  · -- (4) stage-2 checkpoint only after merge and all batch checkpoints
    intro hmem hbig
    have hin2 : Ev.writeStageCp 2 ∈ (stage2Seg env).1 := by
      rcases orchTrace_mem hmem with h1 | h1 | h1
      · exact absurd h1 (stage1Seg_no_writeStageCp env 2 (by decide))
      · exact h1
      · rcases hseg3w 2 h1 with ⟨hf, _⟩
        exact absurd hf (by decide)
    rcases hseg2w 2 hin2 with ⟨_, _, hb2, hseq⟩
    have hseg2t : (stage2Seg env).2 = true := by
      unfold stage2Seg stageStep
      rcases hseg2w 2 hin2 with ⟨_, hscp, _, _⟩
      rw [if_neg (by simp [hscp]), if_pos hb2]
    rcases runBatched_success_cp 2 env.stage2 hb2 hbig with ⟨hmo, hcps⟩
    rcases orchTrace_shape env with ⟨_, hs⟩ | ⟨_, hf, _⟩ | ⟨_, _, hs⟩
    · rw [hs] at hmem
      exact absurd hmem (stage1Seg_no_writeStageCp env 2 (by decide))
    · rw [hseg2t] at hf
      exact Bool.noConfusion hf
    · refine ⟨(stage1Seg env).1 ++ (runBatchedStageTrace 2 env.stage2).1, (stage3Seg env).1,
        ?_, ?_, ?_⟩
      · rw [hs, hseq]
        simp
      · exact List.mem_append_right _ hmo
      · intro i hi
        rcases hcps i hi with h | h
        · exact Or.inl h
        · exact Or.inr (List.mem_append_right _ h)
  · -- (5) stage-3 checkpoint only after merge and all batch checkpoints
    intro hmem hbig
    have hin3 : Ev.writeStageCp 3 ∈ (stage3Seg env).1 := by
      rcases orchTrace_mem hmem with h1 | h1 | h1
      · exact absurd h1 (stage1Seg_no_writeStageCp env 3 (by decide))
      · rcases hseg2w 3 h1 with ⟨hf, _⟩
        exact absurd hf (by decide)
      · exact h1
    rcases hseg3w 3 hin3 with ⟨_, _, hb3, hseq⟩
    rcases runBatched_success_cp 3 env.stage3 hb3 hbig with ⟨hmo, hcps⟩
    rcases orchTrace_shape env with ⟨_, hs⟩ | ⟨_, _, hs⟩ | ⟨_, _, hs⟩
    · rw [hs] at hmem
      exact absurd hmem (stage1Seg_no_writeStageCp env 3 (by decide))
    · rw [hs] at hmem
      rcases List.mem_append.mp hmem with h1 | h1
      · exact absurd h1 (stage1Seg_no_writeStageCp env 3 (by decide))
      · rcases hseg2w 3 h1 with ⟨hf, _⟩
        exact absurd hf (by decide)
    · refine ⟨(stage1Seg env).1 ++ (stage2Seg env).1 ++ (runBatchedStageTrace 3 env.stage3).1,
        [], ?_, ?_, ?_⟩
      · rw [hs, hseq]
        simp
      · exact List.mem_append_right _ hmo
      · intro i hi
        rcases hcps i hi with h | h
        · exact Or.inl h
        · exact Or.inr (List.mem_append_right _ h)
  · -- (6) direct-path stage 2: checkpoint only on direct success
    intro hmem hsmall
    have hin2 : Ev.writeStageCp 2 ∈ (stage2Seg env).1 := by
      rcases orchTrace_mem hmem with h1 | h1 | h1
      · exact absurd h1 (stage1Seg_no_writeStageCp env 2 (by decide))
      · exact h1
      · rcases hseg3w 2 h1 with ⟨hf, _⟩
        exact absurd hf (by decide)
    rcases hseg2w 2 hin2 with ⟨_, _, hb2, _⟩
    rw [runBatched_small 2 env.stage2 hsmall] at hb2
    exact hb2
  · -- (7) direct-path stage 3: checkpoint only on direct success
    intro hmem hsmall
    have hin3 : Ev.writeStageCp 3 ∈ (stage3Seg env).1 := by
      rcases orchTrace_mem hmem with h1 | h1 | h1
      · exact absurd h1 (stage1Seg_no_writeStageCp env 3 (by decide))
      · rcases hseg2w 3 h1 with ⟨hf, _⟩
        exact absurd hf (by decide)
      · exact h1
    rcases hseg3w 3 hin3 with ⟨_, _, hb3, _⟩
    rw [runBatched_small 3 env.stage3 hsmall] at hb3
    exact hb3
  · -- (8) existing stage-2 batch checkpoints are never rewritten
    intro i hb hmem
    rcases orchTrace_mem hmem with h1 | h1 | h1
    · have := stage1Seg_count_writeBatchCp env 2 i
      exact absurd h1 (List.count_eq_zero.mp this)
    · rcases stageStep_mem h1 with h2 | h2
      · have := runBatched_mem_writeBatchCp h2
        rw [hb] at this
        exact Bool.noConfusion this.2
      · exact Ev.noConfusion h2
    · rcases stageStep_mem h1 with h2 | h2
      · have := runBatched_mem_writeBatchCp h2
        exact absurd this.1 (by decide)
      · exact Ev.noConfusion h2
  · -- (9) existing stage-3 batch checkpoints are never rewritten
    intro i hb hmem
    rcases orchTrace_mem hmem with h1 | h1 | h1
    · have := stage1Seg_count_writeBatchCp env 3 i
      exact absurd h1 (List.count_eq_zero.mp this)
    · rcases stageStep_mem h1 with h2 | h2
      · have := runBatched_mem_writeBatchCp h2
        exact absurd this.1 (by decide)
      · exact Ev.noConfusion h2
    · rcases stageStep_mem h1 with h2 | h2
      · have := runBatched_mem_writeBatchCp h2
        rw [hb] at this
        exact Bool.noConfusion this.2
      · exact Ev.noConfusion h2
  · -- (10) each batch checkpoint is written at most once
    intro s0 i
    have h1 := stage1Seg_count_writeBatchCp env s0 i
    have h2 := stageStep_count_writeBatchCp 2 s0 i (env.scp 2)
      (runBatchedStageTrace 2 env.stage2) (if s0 = 2 then 1 else 0)
      (runBatched_count_writeBatchCp 2 s0 i env.stage2)
    have h3 := stageStep_count_writeBatchCp 3 s0 i (env.scp 3)
      (runBatchedStageTrace 3 env.stage3) (if s0 = 3 then 1 else 0)
      (runBatched_count_writeBatchCp 3 s0 i env.stage3)
    have htot := orchTrace_count_le env (Ev.writeBatchCp s0 i)
    rw [show (stageStep 2 (env.scp 2) (runBatchedStageTrace 2 env.stage2)) = stage2Seg env from rfl] at h2
    rw [show (stageStep 3 (env.scp 3) (runBatchedStageTrace 3 env.stage3)) = stage3Seg env from rfl] at h3
    split_ifs at h2 h3 <;> omega

/-- Witness for C3: in a run whose stage-2 checkpoint already exists
(`scp 2 = true`), the trace never writes the stage-2 checkpoint again. -/
theorem stage_checkpoint_invariants_witness :
    Ev.writeStageCp 2 ∉ orchTrace
      ⟨fun s => s == 2, true,
        ⟨[], 10, false, [], true, fun _ => true, fun _ => false⟩,
        ⟨[], 10, false, [], true, fun _ => true, fun _ => false⟩⟩ :=
  (stage_checkpoint_invariants
    ⟨fun s => s == 2, true,
      ⟨[], 10, false, [], true, fun _ => true, fun _ => false⟩,
      ⟨[], 10, false, [], true, fun _ => true, fun _ => false⟩⟩).1 2 rfl

/-- Model of `PipelineOrchestrator.clear_checkpoints`: removes every stage-level
checkpoint file (`work_dir/.checkpoint_*`) and every split-batch
directory (`stage*_batches`), hence also every batch checkpoint, split
marker, and previously split batch inside them.  Stage inputs and the
opaque stage functions are untouched. -/
def clearCheckpoints (env : OrchEnv) : OrchEnv :=
  ⟨fun _ => false, env.stage1Ok,
    ⟨env.stage2.lines, env.stage2.batchSize, false, [], env.stage2.directOk,
      env.stage2.ok, fun _ => false⟩,
    ⟨env.stage3.lines, env.stage3.batchSize, false, [], env.stage3.directOk,
      env.stage3.ok, fun _ => false⟩⟩

theorem batchLoop_all_ok (s : Nat) (ok bcp : Nat → Bool)
    (hok : ∀ i, ok i = true) (hbcp : ∀ i, bcp i = false) :
    ∀ l, batchLoopTrace s ok bcp l = (l.flatMap (batchPair s), none) := by
  intro l
  induction l with
  | nil => rfl
  | cons a t ih => simp [batchLoopTrace, hbcp a, hok a, ih, batchPair]

theorem runBatched_all_ok (s : Nat) (e : StageEnv) (hd : e.directOk = true)
    (hok : ∀ i, e.ok i = true) (hbcp : ∀ i, e.bcp i = false) :
    (runBatchedStageTrace s e).2 = true
    ∧ (count_entries e.lines ≤ e.batchSize →
        Ev.execDirect s ∈ (runBatchedStageTrace s e).1)
    ∧ (e.batchSize < count_entries e.lines →
        ∀ i < (stageBatches e).length, Ev.execBatch s i ∈ (runBatchedStageTrace s e).1) := by
  by_cases hsm : count_entries e.lines ≤ e.batchSize
  · rw [runBatched_small s e hsm]
    exact ⟨hd, fun _ => List.mem_singleton.mpr rfl, fun hbig => absurd hsm (by omega)⟩
  · have herr : batchLoopTrace s e.ok e.bcp (List.range (stageBatches e).length)
        = ((List.range (stageBatches e).length).flatMap (batchPair s), none) :=
      batchLoop_all_ok s e.ok e.bcp hok hbcp _
    have htr := runBatched_big_none s e hsm (by rw [herr])
    refine ⟨by rw [htr], fun h => absurd h hsm, fun _ i hi => ?_⟩
    rw [htr]
    apply List.mem_append_left
    apply List.mem_append_right
    rw [herr]
    exact List.mem_flatMap.mpr ⟨i, List.mem_range.mpr hi, List.mem_cons_self _ _⟩

theorem stageStep_success (s : Nat) (scp : Bool) (body : List Ev × Bool)
    (hscp : scp = false) (hb : body.2 = true) :
    stageStep s scp body = (body.1 ++ [Ev.writeStageCp s], true) := by
  unfold stageStep
  rw [if_neg (by simp [hscp]), if_pos hb]

theorem orchTrace_all_success (env : OrchEnv)
    (h1 : (stage1Seg env).2 = true) (h2 : (stage2Seg env).2 = true) :
    orchTrace env = (stage1Seg env).1 ++ (stage2Seg env).1 ++ (stage3Seg env).1 := by
  unfold orchTrace orchRun
  simp [h1, h2]

/-- Claim C6: `clear_checkpoints` forces a cold start.  It removes every
stage-level checkpoint, every batch checkpoint, and the split markers
with their batch directories; a subsequent run (here, one whose stage
functions succeed) then re-executes stage 1 and, for each batched stage,
either the direct whole-input run or every single batch of a fresh
split — even though the model carries the prior stage outputs nowhere
into `run`, which consults only checkpoints. -/
theorem clear_checkpoints_cold_start (env : OrchEnv)
    (h1 : env.stage1Ok = true)
    (h2d : env.stage2.directOk = true) (h2 : ∀ i, env.stage2.ok i = true)
    (h3d : env.stage3.directOk = true) (h3 : ∀ i, env.stage3.ok i = true) :
    (∀ s, (clearCheckpoints env).scp s = false)
    ∧ (∀ i, (clearCheckpoints env).stage2.bcp i = false)
    ∧ (∀ i, (clearCheckpoints env).stage3.bcp i = false)
    ∧ (clearCheckpoints env).stage2.splitDone = false
    ∧ (clearCheckpoints env).stage3.splitDone = false
    ∧ Ev.execDirect 1 ∈ orchTrace (clearCheckpoints env)
    ∧ (count_entries env.stage2.lines ≤ env.stage2.batchSize →
        Ev.execDirect 2 ∈ orchTrace (clearCheckpoints env))
    ∧ (env.stage2.batchSize < count_entries env.stage2.lines →
        ∀ i < (split env.stage2.lines env.stage2.batchSize).length,
          Ev.execBatch 2 i ∈ orchTrace (clearCheckpoints env))
    ∧ (count_entries env.stage3.lines ≤ env.stage3.batchSize →
        Ev.execDirect 3 ∈ orchTrace (clearCheckpoints env))
    ∧ (env.stage3.batchSize < count_entries env.stage3.lines →
        ∀ i < (split env.stage3.lines env.stage3.batchSize).length,
          Ev.execBatch 3 i ∈ orchTrace (clearCheckpoints env)) := by
  have hball2 := runBatched_all_ok 2 (clearCheckpoints env).stage2 h2d h2 (fun _ => rfl)
  have hball3 := runBatched_all_ok 3 (clearCheckpoints env).stage3 h3d h3 (fun _ => rfl)
  have hseg1 : stage1Seg (clearCheckpoints env)
      = ([Ev.execDirect 1, Ev.writeStageCp 1], true) := by
    unfold stage1Seg
    rw [stageStep_success 1 ((clearCheckpoints env).scp 1)
      ([Ev.execDirect 1], (clearCheckpoints env).stage1Ok) rfl (by exact h1)]
    rfl
  have hseg2 := stageStep_success 2 ((clearCheckpoints env).scp 2)
    (runBatchedStageTrace 2 (clearCheckpoints env).stage2) rfl hball2.1
  have hseg3 := stageStep_success 3 ((clearCheckpoints env).scp 3)
    (runBatchedStageTrace 3 (clearCheckpoints env).stage3) rfl hball3.1
  have hshape := orchTrace_all_success (clearCheckpoints env)
    (by rw [hseg1]) (by unfold stage2Seg; rw [hseg2])
  have hmem2 : ∀ ev ∈ (runBatchedStageTrace 2 (clearCheckpoints env).stage2).1,
      ev ∈ orchTrace (clearCheckpoints env) := by
    intro ev hev
    rw [hshape]
    apply List.mem_append_left
    apply List.mem_append_right
    unfold stage2Seg
    rw [hseg2]
    exact List.mem_append_left _ hev
  have hmem3 : ∀ ev ∈ (runBatchedStageTrace 3 (clearCheckpoints env).stage3).1,
      ev ∈ orchTrace (clearCheckpoints env) := by
    intro ev hev
    rw [hshape]
    apply List.mem_append_right
    unfold stage3Seg
    rw [hseg3]
    exact List.mem_append_left _ hev
  refine ⟨fun _ => rfl, fun _ => rfl, fun _ => rfl, rfl, rfl, ?_, ?_, ?_, ?_, ?_⟩
  · rw [hshape, hseg1]
    apply List.mem_append_left
    apply List.mem_append_left
    exact List.mem_cons_self _ _
  · intro hsm
    exact hmem2 _ (hball2.2.1 hsm)
  · intro hbig i hi
    exact hmem2 _ (hball2.2.2 hbig i hi)
  · intro hsm
    exact hmem3 _ (hball3.2.1 hsm)
  · intro hbig i hi
    exact hmem3 _ (hball3.2.2 hbig i hi)

/-- Witness for C6: a run whose checkpoints all exist (so an uncleared
re-run would skip everything) re-executes stage 1 and stage 2's batch 0
after `clear_checkpoints`, on a concrete two-record collection split
with `batch_size = 1`. -/
theorem clear_checkpoints_cold_start_witness :
    Ev.execDirect 1 ∈ orchTrace (clearCheckpoints
      ⟨fun _ => true, true,
        ⟨["QV_TAG a\n", "QV_TAG b\n"], 1, true, [["QV_TAG a\n"], ["QV_TAG b\n"]], true,
          fun _ => true, fun _ => true⟩,
        ⟨[], 10, false, [], true, fun _ => true, fun _ => true⟩⟩)
    ∧ Ev.execBatch 2 0 ∈ orchTrace (clearCheckpoints
      ⟨fun _ => true, true,
        ⟨["QV_TAG a\n", "QV_TAG b\n"], 1, true, [["QV_TAG a\n"], ["QV_TAG b\n"]], true,
          fun _ => true, fun _ => true⟩,
        ⟨[], 10, false, [], true, fun _ => true, fun _ => true⟩⟩) := by
  have h := clear_checkpoints_cold_start
    ⟨fun _ => true, true,
      ⟨["QV_TAG a\n", "QV_TAG b\n"], 1, true, [["QV_TAG a\n"], ["QV_TAG b\n"]], true,
        fun _ => true, fun _ => true⟩,
      ⟨[], 10, false, [], true, fun _ => true, fun _ => true⟩⟩
    rfl rfl (fun _ => rfl) rfl (fun _ => rfl)
  exact ⟨h.2.2.2.2.2.1, h.2.2.2.2.2.2.2.1 (by decide) 0 (by decide)⟩

/-! ## Parallel dispatcher (`parallel.py`) -/

/-- Whether a worker's stage invocation raised an exception. -/
def isErr {ε : Type} (r : Except ε (List String)) : Bool :=
  match r with
  | .error _ => true
  | .ok _ => false

/-- The chunk output file of worker `i` as found on disk at merge time:
present with the content the worker wrote on success, absent on
failure. -/
def chunkOut {ε : Type} (res : Nat → Except ε (List String)) (i : Nat) :
    Option (List String) :=
  match res i with
  | .ok o => some o
  | .error _ => none

/-- The `failures` list accumulated under the lock: one
`(worker index, exception)` pair per failed worker, appended in the
order the workers finished.  `arrival` is the completion order of all
`W` workers (an arbitrary permutation of `0..W-1`, since thread
scheduling is nondeterministic). -/
def failuresList {ε : Type} (res : Nat → Except ε (List String))
    (arrival : List Nat) : List (Nat × ε) :=
  arrival.filterMap (fun g =>
    match res g with
    | .error e => some (g, e)
    | .ok _ => none)

/-- The errors `run_stage_parallel` can raise: the untouched exception
of the direct `num_gpus ≤ 1` path, or the aggregate error listing every
failed worker. -/
inductive ParError (ε : Type) where
  | single (e : ε)
  | aggregate (failures : List (Nat × ε))

/-- Model of `run_stage_parallel`: with `num_gpus ≤ 1` the stage function runs
directly on the whole input.  Otherwise the input is split into `W`
chunks, all `W` workers are started, and all are joined regardless of
individual failures (a failure only appends to `failures`, it cancels no
sibling).  If any failures were collected, a single aggregate error
carrying the whole failures list is raised and no merge is attempted;
only with zero failures are the chunk outputs merged, in worker-index
order. -/
def run_stage_parallel {ε : Type} (W : Nat) (res : Nat → Except ε (List String))
    (arrival : List Nat) : Except (ParError ε) (List String) :=
  if W ≤ 1 then
    match res 0 with
    | .ok o => .ok o
    | .error e => .error (.single e)
  else if (failuresList res arrival).isEmpty then
    .ok (mergeContent ((List.range W).map (chunkOut res)))
  else
    .error (.aggregate (failuresList res arrival))

theorem failuresList_mem {ε : Type} (res : Nat → Except ε (List String))
    (arrival : List Nat) (i : Nat) (e : ε) :
    (i, e) ∈ failuresList res arrival ↔ i ∈ arrival ∧ res i = .error e := by
  unfold failuresList
  rw [List.mem_filterMap]
  constructor
  · rintro ⟨a, ha, hfa⟩
    cases hra : res a with
    | error e' =>
      rw [hra] at hfa
      have h1 : a = i := by
        injection hfa with h
        injection h
      have h2 : e' = e := by
        injection hfa with h
        injection h
      subst h1
      subst h2
      exact ⟨ha, hra⟩
    | ok o =>
      rw [hra] at hfa
      exact Option.noConfusion hfa
  · rintro ⟨ha, hre⟩
    exact ⟨i, ha, by rw [hre]⟩

theorem failuresList_head {ε : Type} (res : Nat → Except ε (List String)) :
    ∀ (arrival : List Nat) (g0 : Nat) (e0 : ε),
      arrival.find? (fun g => isErr (res g)) = some g0 → res g0 = .error e0 →
      (failuresList res arrival).head? = some (g0, e0) := by
  intro arrival
  induction arrival with
  | nil =>
    intro g0 e0 hfind _
    exact Option.noConfusion hfind
  | cons a t ih =>
    intro g0 e0 hfind hg0
    by_cases ha : isErr (res a) = true
    · have ha' : (fun g => isErr (res g)) a = true := ha
      rw [List.find?_cons_of_pos t ha'] at hfind
      have hag : a = g0 := Option.some.inj hfind
      subst hag
      unfold failuresList
      rw [List.filterMap_cons, hg0]
      rfl
    · have ha' : ¬ ((fun g => isErr (res g)) a = true) := ha
      rw [List.find?_cons_of_neg t (by simpa using ha')] at hfind
      have hok : ∃ o, res a = .ok o := by
        cases hra : res a with
        | error e' =>
          rw [hra] at ha
          exact absurd rfl ha
        | ok o => exact ⟨o, rfl⟩
      rcases hok with ⟨o, hra⟩
      unfold failuresList
      rw [List.filterMap_cons, hra]
      exact ih g0 e0 hfind hg0

theorem failuresList_eq_nil {ε : Type} (res : Nat → Except ε (List String))
    (arrival : List Nat) (h : ∀ g ∈ arrival, isErr (res g) = false) :
    failuresList res arrival = [] := by
  apply List.filterMap_eq_nil_iff.mpr
  intro a ha
  cases hra : res a with
  | error e' =>
    have := h a ha
    rw [hra] at this
    exact absurd this (by simp [isErr])
  | ok o => rfl

/-- Claim C4: parallel dispatch failure aggregation for `W > 1` workers.
All `W` workers run to completion independently of each other (the
model quantifies over every completion order `arrival` of all `W`
workers, and the failures list collects every failing worker no matter
when it finished).  If no worker fails, the outputs are merged.  If one
or more fail, a single aggregate error is raised whose failure list
names exactly the failed worker indices and whose head — the detail the
raised message carries first — is the earliest-finishing failure; no
merged output is produced. -/
theorem run_stage_parallel_contract {ε : Type} (W : Nat)
    (res : Nat → Except ε (List String)) (arrival : List Nat)
    (hW : 1 < W) (hperm : arrival.Perm (List.range W)) :
    ((∀ i < W, isErr (res i) = false) →
      run_stage_parallel W res arrival
        = .ok (mergeContent ((List.range W).map (chunkOut res))))
    ∧ ((∃ i, i < W ∧ isErr (res i) = true) →
        ∃ fs g0 e0,
          run_stage_parallel W res arrival = .error (.aggregate fs)
          ∧ arrival.find? (fun g => isErr (res g)) = some g0
          ∧ res g0 = .error e0
          ∧ fs.head? = some (g0, e0)
          ∧ ∀ i, (∃ e, (i, e) ∈ fs) ↔ (i < W ∧ isErr (res i) = true)) := by
  have hWn : ¬ W ≤ 1 := by omega
  constructor
  · intro hall
    have hnil : failuresList res arrival = [] :=
      failuresList_eq_nil res arrival (fun g hg =>
        hall g (List.mem_range.mp (hperm.mem_iff.mp hg)))
    unfold run_stage_parallel
    rw [if_neg hWn, if_pos (by rw [hnil]; rfl)]
  · rintro ⟨i, hiW, hie⟩
    have hiarr : i ∈ arrival := hperm.mem_iff.mpr (List.mem_range.mpr hiW)
    have hfind : (arrival.find? (fun g => isErr (res g))).isSome :=
      List.find?_isSome.mpr ⟨i, hiarr, hie⟩
    rcases Option.isSome_iff_exists.mp hfind with ⟨g0, hg0find⟩
    have hg0err : isErr (res g0) = true :=
      @List.find?_some Nat (fun g => isErr (res g)) g0 arrival hg0find
    have hg0e : ∃ e0, res g0 = .error e0 := by
      cases hr : res g0 with
      | error e' => exact ⟨e', rfl⟩
      | ok o =>
        rw [hr] at hg0err
        exact absurd hg0err (by simp [isErr])
    rcases hg0e with ⟨e0, hg0e⟩
    have hhead : (failuresList res arrival).head? = some (g0, e0) :=
      failuresList_head res arrival g0 e0 hg0find hg0e
    have hne : (failuresList res arrival).isEmpty = false := by
      cases hfs : failuresList res arrival with
      | nil =>
        rw [hfs] at hhead
        exact Option.noConfusion hhead
      | cons x xs => rfl
    refine ⟨failuresList res arrival, g0, e0, ?_, hg0find, hg0e, hhead, ?_⟩
    · unfold run_stage_parallel
      rw [if_neg hWn, if_neg (by rw [hne]; exact Bool.noConfusion)]
    · intro j
      constructor
      · rintro ⟨e, hje⟩
        rcases (failuresList_mem res arrival j e).mp hje with ⟨hja, hjerr⟩
        exact ⟨List.mem_range.mp (hperm.mem_iff.mp hja), by rw [hjerr]; rfl⟩
      · rintro ⟨hjW, hjerr⟩
        have hje : ∃ e, res j = .error e := by
          cases hr : res j with
          | error e' => exact ⟨e', rfl⟩
          | ok o =>
            rw [hr] at hjerr
            exact absurd hjerr (by simp [isErr])
        rcases hje with ⟨e, hre⟩
        exact ⟨e, (failuresList_mem res arrival j e).mpr
          ⟨hperm.mem_iff.mpr (List.mem_range.mpr hjW), hre⟩⟩

/-- A worker-result function for the C4 witness: worker 0 fails, worker
1 succeeds. -/
def witnessRes2 : Nat → Except String (List String) :=
  fun i => if i == 0 then .error ("boom") else .ok ["QV_TAG x\n"]

/-- Witness for C4: `W = 2`, completion order `[1, 0]` (the successful
worker finishes first), worker 0 failing: dispatch raises the aggregate
error whose list names exactly worker 0 and whose head carries worker
0's failure. -/
theorem run_stage_parallel_contract_witness :
    ∃ fs g0 e0,
      run_stage_parallel 2 witnessRes2 [1, 0] = .error (.aggregate fs)
      ∧ ([1, 0] : List Nat).find? (fun g => isErr (witnessRes2 g)) = some g0
      ∧ witnessRes2 g0 = .error e0
      ∧ fs.head? = some (g0, e0)
      ∧ ∀ i, (∃ e, (i, e) ∈ fs) ↔ (i < 2 ∧ isErr (witnessRes2 i) = true) :=
  (run_stage_parallel_contract 2 witnessRes2 [1, 0] (by decide) (by decide)).2
    ⟨0, by decide, by decide⟩

theorem mergeContent_range_some (n : Nat) (oc : Nat → Option (List String))
    (c : Nat → List String) (h : ∀ i < n, oc i = some (c i)) :
    mergeContent ((List.range n).map oc) = ((List.range n).map c).flatten := by
  have h1 : (List.range n).map oc = (List.range n).map (fun i => some (c i)) :=
    List.map_congr_left (fun a ha => h a (List.mem_range.mp ha))
  have h2 : (List.range n).map (fun i => some (c i)) = ((List.range n).map c).map some := by
    rw [List.map_map]
    rfl
  rw [h1, h2, mergeContent_map_some]

/-- The merged stage output written by `_run_batched_stage`: the merge
of the per-batch output files `output_0000.qv .. output_{n-1}.qv`, whose
paths are accumulated in batch-index order for every batch (skipped or
executed alike). -/
def batchedStageMergedOutput (n : Nat) (outContent : Nat → Option (List String)) :
    List String :=
  mergeContent ((List.range n).map outContent)

/-- Claim C5: merged-output ordering.  For a batched stage, the merged
stage output is the concatenation of the per-batch outputs in ascending
batch index.  For a parallel stage whose workers all succeed, the
dispatch result is the concatenation of the chunk outputs in ascending
worker index, whatever the completion order `arrival` was — never
completion order. -/
theorem merged_output_index_order :
    (∀ (n : Nat) (outContent : Nat → Option (List String)) (c : Nat → List String),
      (∀ i < n, outContent i = some (c i)) →
      batchedStageMergedOutput n outContent = ((List.range n).map c).flatten)
    ∧ (∀ (ε : Type) (W : Nat) (res : Nat → Except ε (List String))
        (c : Nat → List String) (arrival : List Nat),
        1 < W → (∀ i < W, res i = .ok (c i)) → arrival.Perm (List.range W) →
        run_stage_parallel W res arrival = .ok (((List.range W).map c).flatten)) := by
  constructor
  · intro n outContent c h
    exact mergeContent_range_some n outContent c h
  · intro ε W res c arrival hW hok hperm
    have hall : ∀ i < W, isErr (res i) = false := by
      intro i hi
      rw [hok i hi]
      rfl
    have h1 := (run_stage_parallel_contract W res arrival hW hperm).1 hall
    rw [h1, mergeContent_range_some W (chunkOut res) c]
    intro i hi
    unfold chunkOut
    rw [hok i hi]

/-- Witness for C5: a `W = 4` dispatch whose completion order `[2,0,3,1]`
differs from the index order still merges chunk outputs in index order
`0,1,2,3`; and a 2-batch merged output equals the index-order
concatenation of the two batch outputs. -/
theorem merged_output_index_order_witness :
    batchedStageMergedOutput 2 (fun i => some (if i == 0 then ["a\n"] else ["b\n"]))
      = ((List.range 2).map (fun i => if i == 0 then ["a\n"] else ["b\n"])).flatten
    ∧ run_stage_parallel 4
        (fun i => (Except.ok [toString i] : Except String (List String)))
        [2, 0, 3, 1]
      = .ok (((List.range 4).map (fun i => [toString i])).flatten) :=
  ⟨merged_output_index_order.1 2 _ _ (fun _ _ => rfl),
    merged_output_index_order.2 String 4 _ (fun i => [toString i]) [2, 0, 3, 1]
      (by decide) (fun _ _ => rfl) (by decide)⟩

end Pipeline
